import Mathlib

set_option maxHeartbeats 1000000

/-!
Verification development for the kanbun dashboard frontend
(`src/app/page.tsx`, `src/components/AgentDetailPanel.tsx`,
`src/lib/tauri.ts`, `src/types/index.ts`).

JavaScript values observed by the code are embedded shallowly:
strings are `String`, records are structures or association lists,
JSON values are the `Json` inductive below, and `Date.parse` of a
timestamp string is an explicit `time : String → Int` parameter.
-/

/-- JSON value as produced by `JSON.parse`.  A numeric value carries the
string rendering that JavaScript `String(value)` would produce for it,
which is the only observation the embedded code makes of numbers. -/
inductive Json where
  | null : Json
  | bool : Bool → Json
  | num : String → Json
  | str : String → Json
  | arr : List Json → Json
  | obj : List (String × Json) → Json

/-- JavaScript `String(value)` on a parsed JSON value
(`String(null) = "null"`, booleans render as `true`/`false`, arrays render
as their elements joined by commas with `null` entries rendered empty,
plain objects render as `[object Object]`). -/
def jsToString : Json → String
  | Json.null => "null"
  | Json.bool b => cond b "true" "false"
  | Json.num r => r
  | Json.str s => s
  | Json.obj _ => "[object Object]"
  | Json.arr xs => String.intercalate "," (xs.attach.map fun j =>
      match j with
      | ⟨Json.null, _⟩ => ""
      | ⟨j2, _⟩ => jsToString j2)
decreasing_by
  have := List.sizeOf_lt_of_mem ‹j2 ∈ xs›
  simp_all
  omega

/-- JavaScript `String.prototype.trim`, embedded structurally over the
character list (strip leading and trailing whitespace) so that it
evaluates inside the kernel. -/
def jsTrim (s : String) : String :=
  ⟨((s.data.dropWhile Char.isWhitespace).reverse.dropWhile
      Char.isWhitespace).reverse⟩

/-- JavaScript `String.prototype.toLowerCase`, embedded as a character-wise
lowercase map. -/
def jsToLower (s : String) : String :=
  ⟨s.data.map Char.toLower⟩

/-- MessageDirection from `src/types/index.ts`. -/
inductive MessageDirection where
  | to_agent
  | from_agent
deriving DecidableEq, Repr

/-- String literal of a `MessageDirection`, as in the TypeScript union. -/
def messageDirectionToString : MessageDirection → String
  | .to_agent => "to_agent"
  | .from_agent => "from_agent"

/-- MessageKind from `src/types/index.ts`. -/
inductive MessageKind where
  | instruction
  | pause
  | resume
  | cancel
  | status_request
  | status_update
  | output
  | error
  | blocked
  | completed
  | heartbeat
deriving DecidableEq, Repr

/-- String literal of a `MessageKind`, as in the TypeScript union. -/
def messageKindToString : MessageKind → String
  | .instruction => "instruction"
  | .pause => "pause"
  | .resume => "resume"
  | .cancel => "cancel"
  | .status_request => "status_request"
  | .status_update => "status_update"
  | .output => "output"
  | .error => "error"
  | .blocked => "blocked"
  | .completed => "completed"
  | .heartbeat => "heartbeat"

/-- Message record from `src/types/index.ts`. -/
structure Message where
  id : String
  agent_id : String
  direction : MessageDirection
  kind : MessageKind
  content : String
  metadata : Option (List (String × Json))
  reply_to : Option String
  created_at : String
  delivered_at : Option String
  acknowledged_at : Option String

/-- AdapterType from `src/types/index.ts`. -/
inductive AdapterType where
  | claude_code
  | codex
  | tmux
  | http_webhook
  | process
  | mock
deriving DecidableEq, Repr

/-- String literal of an `AdapterType`, as in the TypeScript union. -/
def adapterTypeToString : AdapterType → String
  | .claude_code => "claude_code"
  | .codex => "codex"
  | .tmux => "tmux"
  | .http_webhook => "http_webhook"
  | .process => "process"
  | .mock => "mock"

/-- The string literals of the `AdapterType` union in `src/types/index.ts`,
in source order. -/
def adapterTypeNames : List String :=
  ["claude_code", "codex", "tmux", "http_webhook", "process", "mock"]

/-- Modelled from the spec: the five `adapter_type` variants the spec data
model lists, `adapter_type ∈ {mock, process, terminal_session,
http_webhook(reserved), codex(reserved)}`. -/
def specAdapterTypeNames : List String :=
  ["mock", "process", "terminal_session", "http_webhook", "codex"]

/-- AdapterConfig record from `src/types/index.ts`; `env` is the
`Record<string, string> | null` map embedded as an association list. -/
structure AdapterConfig where
  adapter_type : AdapterType
  session_name : Option String
  endpoint : Option String
  command : Option String
  env : Option (List (String × String))
deriving DecidableEq, Repr

/-- AdapterHealth record as declared in `src/types/index.ts` (lines
173-178): it has exactly the four fields below. -/
structure AdapterHealth where
  connected : Bool
  session_active : Bool
  last_heartbeat : Option String
  details : Option String
deriving DecidableEq, Repr

/-- Field names of the `AdapterHealth` interface declared in
`src/types/index.ts`, in source order. -/
def adapterHealthFields : List String :=
  ["connected", "session_active", "last_heartbeat", "details"]

/-- Modelled from the spec: the field names of the spec data model entry
for AdapterHealth (connected, session_active, last_heartbeat, details,
last_error, consecutive_failures, retry_after_seconds,
suppress_auto_restart). -/
def specAdapterHealthFields : List String :=
  ["connected", "session_active", "last_heartbeat", "details",
   "last_error", "consecutive_failures", "retry_after_seconds",
   "suppress_auto_restart"]

/-- Field names that the `AgentDetailPanel` component
(`src/components/AgentDetailPanel.tsx`, Adapter Health section) reads off
the `adapterHealth` value it receives. -/
def agentDetailPanelHealthFieldsRead : List String :=
  ["connected", "session_active", "consecutive_failures",
   "retry_after_seconds", "suppress_auto_restart", "last_heartbeat",
   "last_error", "details"]

/-- JavaScript object property lookup `env[key]` on a
`Record<string, string>` embedded as an association list (object keys are
unique, so the first match is the value). -/
def lookupEnv (env : List (String × String)) (key : String) : Option String :=
  (env.find? fun p => p.1 = key).map Prod.snd

/-- JavaScript object spread-and-assign `{...env, [key]: value}`: an
existing key keeps its position and gets the new value, a fresh key is
appended last. -/
def setEnvKey (env : List (String × String)) (key value : String) :
    List (String × String) :=
  if env.any fun p => p.1 = key then
    env.map fun p => if p.1 = key then (key, value) else p
  else env ++ [(key, value)]

/-- PROCESS_RESTART_POLICY_KEY constant from
`src/components/AgentDetailPanel.tsx`. -/
def PROCESS_RESTART_POLICY_KEY : String := "__kanbun_restart_policy"

/-- ProcessRestartPolicy union from `src/components/AgentDetailPanel.tsx`. -/
inductive ProcessRestartPolicy where
  | never
  | on_failure
  | always
deriving DecidableEq, Repr

/-- String literal of a `ProcessRestartPolicy`. -/
def processRestartPolicyToString : ProcessRestartPolicy → String
  | .never => "never"
  | .on_failure => "on_failure"
  | .always => "always"

/-- getProcessRestartPolicy from `src/components/AgentDetailPanel.tsx`:
reads `env?.[PROCESS_RESTART_POLICY_KEY]?.trim().toLowerCase()` and
defaults to `on_failure` for anything unrecognized. -/
def getProcessRestartPolicy (env : Option (List (String × String))) :
    ProcessRestartPolicy :=
  match (env.bind fun e => lookupEnv e PROCESS_RESTART_POLICY_KEY).map
      fun raw => jsToLower (jsTrim raw) with
  | some "never" => .never
  | some "always" => .always
  | some "on_failure" => .on_failure
  | _ => .on_failure

/-- Value normalization step of `parseEnvDraft`: a string value is kept,
a JSON `null` becomes the empty string, any other value goes through
JavaScript `String(value)`. -/
def envValueString : Json → String
  | Json.str s => s
  | Json.null => ""
  | v => jsToString v

/-- Normalization loop of `parseEnvDraft`: iterate the parsed object's
entries in order, skip blank keys, convert each value, and store with
JavaScript object assignment (`normalized[key] = ...`). -/
def normalizeEnvEntries (entries : List (String × Json)) :
    List (String × String) :=
  entries.foldl
    (fun acc p =>
      if jsTrim p.1 = "" then acc else setEnvKey acc p.1 (envValueString p.2))
    []

/-- parseEnvDraft from `src/components/AgentDetailPanel.tsx`.  `parse`
embeds `JSON.parse` (`none` means a syntax error was thrown).  A thrown
error is an `Except.error` carrying the error message; a `null` result is
`Option.none`. -/
def parseEnvDraft (parse : String → Option Json) (raw : String) :
    Except String (Option (List (String × String))) :=
  let trimmed := jsTrim raw
  if trimmed = "" then .ok none
  else
    match parse trimmed with
    | none => .error "Environment must be valid JSON."
    | some parsed =>
      match parsed with
      | Json.obj entries =>
        let normalized := normalizeEnvEntries entries
        .ok (if normalized.length > 0 then some normalized else none)
      | _ => .error "Environment must be a JSON object."

/-- One step of the `byId` map construction in `mergeConversationMessages`
(`src/app/page.tsx`): `byId.set(message.id, message)` keeps the position
of an existing key and replaces its value, and appends a fresh key. -/
def upsertById (acc : List Message) (m : Message) : List Message :=
  if acc.any fun x => x.id = m.id then
    acc.map fun x => if x.id = m.id then m else x
  else acc ++ [m]

/-- The comparator of `mergeConversationMessages` as a sort predicate:
`a` may precede `b` when its parsed `created_at` time is smaller, or the
times are equal and `a.id.localeCompare(b.id) <= 0` (string order on
ids). -/
def messageLe (time : String → Int) (a b : Message) : Bool :=
  decide (time a.created_at < time b.created_at
    ∨ (time a.created_at = time b.created_at ∧ a.id ≤ b.id))

/-- mergeConversationMessages from `src/app/page.tsx`: deduplicate by id
in a `Map` (incoming entries overwrite existing ones), then stably sort
the values by `(new Date(created_at).getTime(), id)`.  `time` embeds
`s => new Date(s).getTime()`. -/
def mergeConversationMessages (time : String → Int)
    (existing incoming : List Message) : List Message :=
  ((existing ++ incoming).foldl upsertById []).mergeSort (messageLe time)

/-- Lookup of a message by id, used to reason about the `byId` map. -/
def findById (l : List Message) (k : String) : Option Message :=
  l.find? fun x => decide (x.id = k)

/-- Last entry of a list carrying a given id; the value a JavaScript `Map`
holds at key `k` after inserting the whole list. -/
def lastById (l : List Message) (k : String) : Option Message :=
  l.reverse.find? fun x => decide (x.id = k)

/-- Outcome of one invocation of `handleSaveAdapterConfig` in
`src/components/AgentDetailPanel.tsx`: either an error message is shown
via `setAdapterConfigError` and nothing is sent, or `onSaveAdapterConfig`
(which forwards to `set_adapter_config`) is called once with the built
config. -/
inductive SaveConfigOutcome where
  | configError : String → SaveConfigOutcome
  | save : AdapterConfig → SaveConfigOutcome
deriving DecidableEq, Repr

/-- handleSaveAdapterConfig from `src/components/AgentDetailPanel.tsx`:
reject a missing config, reject a blank command for a process adapter,
parse the environment draft, re-attach the restart-policy key for process
adapters, and only then hand the new config to `onSaveAdapterConfig`. -/
def handleSaveAdapterConfig (parse : String → Option Json)
    (adapterConfig : Option AdapterConfig)
    (adapterCommandDraft adapterEnvDraft : String)
    (processRestartPolicy : ProcessRestartPolicy) : SaveConfigOutcome :=
  match adapterConfig with
  | none => .configError "No adapter configuration available for this workstream."
  | some cfg =>
    if cfg.adapter_type = .process ∧ jsTrim adapterCommandDraft = "" then
      .configError "Process command is required."
    else
      match parseEnvDraft parse adapterEnvDraft with
      | .error msg => .configError msg
      | .ok parsedEnv =>
        let nextEnv :=
          if cfg.adapter_type = .process then
            some (setEnvKey (parsedEnv.getD []) PROCESS_RESTART_POLICY_KEY
              (processRestartPolicyToString processRestartPolicy))
          else parsedEnv
        .save { cfg with
          command :=
            if jsTrim adapterCommandDraft = "" then none
            else some (jsTrim adapterCommandDraft),
          env := nextEnv }

/-- The fields of the AgentDraft form state in `src/app/page.tsx` that the
adapter-config builders read. -/
structure AgentDraft where
  name : String
  functionTag : String
  workingDirectory : String
  adapterType : AdapterType
  sessionPrefix : String
  claudeCommand : String
  processCommand : String
deriving DecidableEq, Repr

/-- buildAdapterEnv from `src/app/page.tsx`: a non-blank permissions
string becomes a one-entry env map, otherwise the env is `null`. -/
def buildAdapterEnv (permissions : String) :
    Option (List (String × String)) :=
  let normalized := jsTrim permissions
  if normalized ≠ "" then some [("KANBUN_CLI_PERMISSIONS", normalized)]
  else none

/-- buildAdapterConfig from `src/app/page.tsx`: build the AdapterConfig
for the drafted adapter type (claude_code, process, or the mock
fallback). -/
def buildAdapterConfig (draft : AgentDraft) (workingDirectory : String)
    (cliPermissions : String := "") : AdapterConfig :=
  if draft.adapterType = .claude_code then
    { adapter_type := .claude_code
      session_name := some (if jsTrim draft.sessionPrefix = "" then "kanbun"
        else jsTrim draft.sessionPrefix)
      endpoint := some (if jsTrim draft.claudeCommand = "" then "claude"
        else jsTrim draft.claudeCommand)
      command := if workingDirectory = "" then none else some workingDirectory
      env := buildAdapterEnv cliPermissions }
  else if draft.adapterType = .process then
    { adapter_type := .process
      session_name := none
      endpoint := none
      command := some (jsTrim draft.processCommand)
      env := buildAdapterEnv cliPermissions }
  else
    { adapter_type := .mock
      session_name := none
      endpoint := none
      command := none
      env := buildAdapterEnv cliPermissions }

/-- Outcome of one invocation of `handleCreateWorkstreamForProject` in
`src/app/page.tsx`, up to the first backend call: either the function
returns silently, or it shows an error via `setAgentError` without
calling `create_agent`/`set_adapter_config`, or it proceeds to create the
agent and send the built adapter config. -/
inductive CreateWorkstreamOutcome where
  | silentReturn : CreateWorkstreamOutcome
  | agentError : String → CreateWorkstreamOutcome
  | create : String → AdapterConfig → CreateWorkstreamOutcome
deriving DecidableEq, Repr

/-- handleCreateWorkstreamForProject from `src/app/page.tsx` (the part up
to the `createAgent`/`setAdapterConfig` calls).  `fallbackName` embeds the
time-stamped `Workstream hh:mm:ss` default name. -/
def handleCreateWorkstreamForProject (draft : AgentDraft)
    (fallbackName : String) : CreateWorkstreamOutcome :=
  let name := if jsTrim draft.name = "" then fallbackName else jsTrim draft.name
  if name = "" then .silentReturn
  else
    let workingDirectory := jsTrim draft.workingDirectory
    if draft.adapterType = .process ∧ jsTrim draft.processCommand = "" then
      .agentError "Process command is required for process adapter."
    else
      .create name (buildAdapterConfig draft workingDirectory)

/-- Outcome of `handleSendMessage` in `src/app/page.tsx`: outside the
desktop runtime an error is shown, otherwise `send_message` is invoked
with the resolved content. -/
inductive SendMessageOutcome where
  | dashboardError : String → SendMessageOutcome
  | send : String → MessageKind → String → SendMessageOutcome
deriving DecidableEq, Repr

/-- handleSendMessage from `src/app/page.tsx`: the content sent is
`content.trim() || "[" + kind + "]"`. -/
def handleSendMessage (isTauri : Bool) (agentId : String)
    (kind : MessageKind) (content : String) : SendMessageOutcome :=
  if !isTauri then
    .dashboardError "Messaging is available only in the desktop runtime."
  else
    let resolvedContent :=
      if jsTrim content = "" then "[" ++ messageKindToString kind ++ "]"
      else jsTrim content
    .send agentId kind resolvedContent

/-- Value inside a Tauri `invoke` argument object. -/
inductive InvokeValue where
  | str : String → InvokeValue
  | num : Nat → InvokeValue
deriving DecidableEq, Repr

/-- A Tauri `invoke(cmd, args)` call: command name plus the argument
object; an `undefined` argument is `none`. -/
structure TauriCall where
  cmd : String
  args : List (String × Option InvokeValue)
deriving DecidableEq, Repr

/-- getConversation from `src/lib/tauri.ts`: the wrapper declares only
`(agentId, limit?)` and invokes `get_conversation` with exactly
`{ agentId, limit }`.  `extraArgs` embeds any additional call-site
arguments beyond the declared parameters, which JavaScript ignores. -/
def getConversation (agentId : String) (limit : Option Nat)
    (_extraArgs : List String := []) : TauriCall :=
  { cmd := "get_conversation"
    args := [("agentId", some (.str agentId)), ("limit", limit.map .num)] }

/-- The `get_conversation` call issued by `loadOlderConversation` in
`src/app/page.tsx`: `getConversation(agentId, 100, beforeCreatedAt)`. -/
def loadOlderConversationCall (agentId : String)
    (beforeCreatedAt : String) : TauriCall :=
  getConversation agentId (some 100) [beforeCreatedAt]

theorem any_id_eq_true (acc : List Message) (k : String) :
    (acc.any fun x => decide (x.id = k)) = true ↔ k ∈ acc.map Message.id := by
  rw [List.any_eq_true]
  constructor
  · rintro ⟨x, hx, hpx⟩
    exact List.mem_map.mpr ⟨x, hx, of_decide_eq_true hpx⟩
  · intro h
    obtain ⟨x, hx, hid⟩ := List.mem_map.mp h
    exact ⟨x, hx, decide_eq_true hid⟩

theorem ids_upsertById (acc : List Message) (m : Message) :
    (upsertById acc m).map Message.id =
      if m.id ∈ acc.map Message.id then acc.map Message.id
      else acc.map Message.id ++ [m.id] := by
  unfold upsertById
  by_cases h : m.id ∈ acc.map Message.id
  · rw [if_pos ((any_id_eq_true acc m.id).mpr h), if_pos h, List.map_map]
    refine List.map_congr_left fun x _ => ?_
    show (if x.id = m.id then m else x).id = x.id
    by_cases hx : x.id = m.id
    · rw [if_pos hx]
      exact hx.symm
    · rw [if_neg hx]
  · rw [if_neg (fun hc => h ((any_id_eq_true acc m.id).mp hc)), if_neg h]
    simp

theorem findById_upsertById (acc : List Message) (m : Message) (k : String) :
    findById (upsertById acc m) k =
      if k = m.id then some m else findById acc k := by
  unfold upsertById findById
  by_cases h : m.id ∈ acc.map Message.id
  · rw [if_pos ((any_id_eq_true acc m.id).mpr h), List.find?_map]
    have hpf : ((fun x => decide (x.id = k)) ∘
        fun x => if x.id = m.id then m else x) =
        fun x : Message => decide (x.id = k) := by
      funext x
      show decide ((if x.id = m.id then m else x).id = k) = decide (x.id = k)
      by_cases hx : x.id = m.id
      · rw [if_pos hx, hx]
      · rw [if_neg hx]
    rw [hpf]
    by_cases hk : k = m.id
    · rw [if_pos hk]
      obtain ⟨x₀, hx₀mem, hx₀⟩ := List.mem_map.mp h
      have hs : (acc.find? fun x => decide (x.id = k)).isSome := by
        rw [List.find?_isSome]
        exact ⟨x₀, hx₀mem, decide_eq_true (hx₀.trans hk.symm)⟩
      obtain ⟨y, hy⟩ := Option.isSome_iff_exists.mp hs
      have hy2 := List.find?_some hy
      have hyk : y.id = k := of_decide_eq_true hy2
      rw [hy, Option.map_some', if_pos (hyk.trans hk)]
    · rw [if_neg hk]
      cases hfind : acc.find? fun x => decide (x.id = k) with
      | none => rfl
      | some y =>
        have hy2 := List.find?_some hfind
        have hyk : y.id = k := of_decide_eq_true hy2
        have hym : ¬ y.id = m.id := fun hc => hk (hyk.symm.trans hc)
        rw [Option.map_some', if_neg hym]
  · rw [if_neg (fun hc => h ((any_id_eq_true acc m.id).mp hc)),
      List.find?_append]
    by_cases hk : k = m.id
    · have hnone : (acc.find? fun x => decide (x.id = k)) = none := by
        rw [List.find?_eq_none]
        intro x hx hxk
        exact h (List.mem_map.mpr ⟨x, hx, (of_decide_eq_true hxk).trans hk⟩)
      have hfm : (List.find? (fun x => decide (x.id = k)) [m]) = some m := by
        apply List.find?_cons_of_pos
        exact decide_eq_true hk.symm
      rw [hnone, Option.none_or, if_pos hk, hfm]
    · have hm : ¬ ((fun x : Message => decide (x.id = k)) m) = true := by
        rw [decide_eq_true_eq]
        exact fun he => hk he.symm
      have hfm : (List.find? (fun x => decide (x.id = k)) [m]) =
          List.find? (fun x => decide (x.id = k)) [] := by
        apply List.find?_cons_of_neg
        exact hm
      rw [hfm, List.find?_nil, Option.or_none, if_neg hk]

theorem nodup_ids_foldl_upsertById :
    ∀ (l acc : List Message), (acc.map Message.id).Nodup →
      ((l.foldl upsertById acc).map Message.id).Nodup := by
  intro l
  induction l with
  | nil => intro acc h; exact h
  | cons x rest ih =>
    intro acc h
    rw [List.foldl_cons]
    refine ih (upsertById acc x) ?_
    rw [ids_upsertById]
    by_cases hx : x.id ∈ acc.map Message.id
    · rw [if_pos hx]; exact h
    · rw [if_neg hx]
      simp [List.nodup_append, h, hx]

theorem mem_ids_foldl_upsertById :
    ∀ (l acc : List Message) (k : String),
      k ∈ (l.foldl upsertById acc).map Message.id ↔
        k ∈ acc.map Message.id ∨ k ∈ l.map Message.id := by
  intro l
  induction l with
  | nil => intro acc k; simp
  | cons x rest ih =>
    intro acc k
    rw [List.foldl_cons, ih, ids_upsertById]
    by_cases hx : x.id ∈ acc.map Message.id
    · rw [if_pos hx]
      constructor
      · rintro (h | h)
        · exact Or.inl h
        · exact Or.inr (List.mem_cons_of_mem _ h)
      · rintro (h | h)
        · exact Or.inl h
        · rcases List.mem_cons.mp h with h | h
          · exact Or.inl (h ▸ hx)
          · exact Or.inr h
    · rw [if_neg hx]
      simp only [List.mem_append, List.mem_singleton, List.map_cons,
        List.mem_cons]
      tauto

theorem ids_foldl_upsertById_of_subset :
    ∀ (l acc : List Message),
      (∀ k ∈ l.map Message.id, k ∈ acc.map Message.id) →
      (l.foldl upsertById acc).map Message.id = acc.map Message.id := by
  intro l
  induction l with
  | nil => intro acc _; rfl
  | cons x rest ih =>
    intro acc hsub
    rw [List.foldl_cons]
    have hx : x.id ∈ acc.map Message.id :=
      hsub x.id (by simp)
    have hids : (upsertById acc x).map Message.id = acc.map Message.id := by
      rw [ids_upsertById, if_pos hx]
    rw [ih (upsertById acc x) (fun k hk => by
      rw [hids]
      exact hsub k (List.mem_cons_of_mem _ hk)), hids]

theorem findById_foldl_of_not_mem :
    ∀ (l acc : List Message) (k : String), k ∉ l.map Message.id →
      findById (l.foldl upsertById acc) k = findById acc k := by
  intro l
  induction l with
  | nil => intro acc k _; rfl
  | cons x rest ih =>
    intro acc k hk
    have hkx : ¬ k = x.id := fun hc => hk (by simp [hc])
    have hkr : k ∉ rest.map Message.id := fun hc =>
      hk (List.mem_cons_of_mem _ hc)
    rw [List.foldl_cons, ih (upsertById acc x) k hkr,
      findById_upsertById, if_neg hkx]

theorem lastById_isSome_iff (l : List Message) (k : String) :
    (lastById l k).isSome ↔ k ∈ l.map Message.id := by
  unfold lastById
  rw [List.find?_isSome]
  constructor
  · rintro ⟨x, hx, hpx⟩
    exact List.mem_map.mpr ⟨x, List.mem_reverse.mp hx, of_decide_eq_true hpx⟩
  · intro h
    obtain ⟨x, hx, hid⟩ := List.mem_map.mp h
    exact ⟨x, List.mem_reverse.mpr hx, decide_eq_true hid⟩

theorem findById_foldl_of_lastById :
    ∀ (l acc : List Message) (k : String) (m : Message),
      lastById l k = some m →
      findById (l.foldl upsertById acc) k = some m := by
  intro l
  induction l with
  | nil => intro acc k m h; simp [lastById] at h
  | cons x rest ih =>
    intro acc k m h
    rw [List.foldl_cons]
    cases hrest : lastById rest k with
    | some y =>
      have hy : lastById (x :: rest) k = some y := by
        unfold lastById at hrest ⊢
        rw [List.reverse_cons, List.find?_append, hrest, Option.or_some]
      rw [hy] at h
      have hym : y = m := Option.some.inj h
      exact ih (upsertById acc x) k m (hym ▸ hrest)
    | none =>
      have hknr : k ∉ rest.map Message.id := by
        intro hc
        have := (lastById_isSome_iff rest k).mpr hc
        rw [hrest] at this
        simp at this
      have hxk : x.id = k ∧ m = x := by
        unfold lastById at h
        rw [List.reverse_cons, List.find?_append] at h
        unfold lastById at hrest
        rw [hrest, Option.none_or] at h
        by_cases hpx : x.id = k
        · have : List.find? (fun z => decide (z.id = k)) [x] = some x :=
            List.find?_cons_of_pos _ (decide_eq_true hpx)
          rw [this] at h
          exact ⟨hpx, (Option.some.injEq _ _ ▸ h).symm⟩
        · have : List.find? (fun z => decide (z.id = k)) [x] =
              List.find? (fun z => decide (z.id = k)) [] :=
            List.find?_cons_of_neg _ (by
              rw [decide_eq_true_eq]; exact hpx)
          rw [this, List.find?_nil] at h
          exact absurd h (by simp)
      rw [findById_foldl_of_not_mem rest (upsertById acc x) k hknr,
        findById_upsertById, if_pos hxk.1.symm, hxk.2]

theorem findById_of_mem :
    ∀ (l : List Message), (l.map Message.id).Nodup → ∀ x ∈ l,
      findById l x.id = some x := by
  intro l
  induction l with
  | nil => intro _ x hx; cases hx
  | cons h t ih =>
    intro hnd x hx
    have hnd' : (t.map Message.id).Nodup := (List.nodup_cons.mp hnd).2
    rcases List.mem_cons.mp hx with hx | hx
    · subst hx
      unfold findById
      exact List.find?_cons_of_pos _ (decide_eq_true rfl)
    · have hne : ¬ h.id = x.id := by
        intro hc
        exact (List.nodup_cons.mp hnd).1
          (hc ▸ List.mem_map.mpr ⟨x, hx, rfl⟩)
      unfold findById
      rw [List.find?_cons_of_neg _ (by rw [decide_eq_true_eq]; exact hne)]
      exact ih hnd' x hx

theorem eq_of_ids_and_findById :
    ∀ (l₁ l₂ : List Message), (l₁.map Message.id).Nodup →
      l₁.map Message.id = l₂.map Message.id →
      (∀ k, findById l₁ k = findById l₂ k) → l₁ = l₂ := by
  intro l₁
  induction l₁ with
  | nil =>
    intro l₂ _ hids _
    cases l₂ with
    | nil => rfl
    | cons h t => simp at hids
  | cons h₁ t₁ ih =>
    intro l₂ hnd hids hfind
    cases l₂ with
    | nil => simp at hids
    | cons h₂ t₂ =>
      simp only [List.map_cons, List.cons.injEq] at hids
      have hid12 : h₁.id = h₂.id := hids.1
      have hfh : findById (h₁ :: t₁) h₁.id = some h₁ := by
        unfold findById
        exact List.find?_cons_of_pos _ (decide_eq_true rfl)
      have hfh₂ : findById (h₂ :: t₂) h₁.id = some h₂ := by
        unfold findById
        exact List.find?_cons_of_pos _ (decide_eq_true hid12.symm)
      have hheads : h₁ = h₂ := by
        have := hfind h₁.id
        rw [hfh, hfh₂] at this
        exact Option.some.inj this
      have hnd' : (t₁.map Message.id).Nodup := (List.nodup_cons.mp hnd).2
      have hnotmem : h₁.id ∉ t₁.map Message.id := (List.nodup_cons.mp hnd).1
      have hnotmem₂ : h₁.id ∉ t₂.map Message.id := hids.2 ▸ hnotmem
      have htails : t₁ = t₂ := by
        refine ih t₂ hnd' hids.2 fun k => ?_
        by_cases hk : k = h₁.id
        · have h1 : findById t₁ k = none := by
            unfold findById
            rw [List.find?_eq_none]
            intro x hx hxk
            exact hnotmem
              (List.mem_map.mpr ⟨x, hx, (of_decide_eq_true hxk).trans hk⟩)
          have h2 : findById t₂ k = none := by
            unfold findById
            rw [List.find?_eq_none]
            intro x hx hxk
            exact hnotmem₂
              (List.mem_map.mpr ⟨x, hx, (of_decide_eq_true hxk).trans hk⟩)
          rw [h1, h2]
        · have e1 : findById (h₁ :: t₁) k = findById t₁ k := by
            unfold findById
            rw [List.find?_cons_of_neg _ (by
              rw [decide_eq_true_eq]
              exact fun hc => hk hc.symm)]
          have e2 : findById (h₂ :: t₂) k = findById t₂ k := by
            unfold findById
            rw [List.find?_cons_of_neg _ (by
              rw [decide_eq_true_eq]
              exact fun hc => hk (hid12 ▸ hc.symm ▸ rfl))]
          rw [← e1, ← e2]
          exact hfind k
      rw [hheads, htails]

theorem foldl_upsertById_idem (m : List Message) :
    m.foldl upsertById (m.foldl upsertById []) = m.foldl upsertById [] := by
  set t := m.foldl upsertById [] with ht
  have hndt : (t.map Message.id).Nodup :=
    nodup_ids_foldl_upsertById m [] (by simp)
  have hnd2 : ((m.foldl upsertById t).map Message.id).Nodup :=
    nodup_ids_foldl_upsertById m t hndt
  refine eq_of_ids_and_findById _ _ hnd2 ?_ ?_
  · refine ids_foldl_upsertById_of_subset m t fun k hk => ?_
    rw [ht, mem_ids_foldl_upsertById]
    exact Or.inr hk
  · intro k
    by_cases hk : k ∈ m.map Message.id
    · obtain ⟨y, hy⟩ :=
        Option.isSome_iff_exists.mp ((lastById_isSome_iff m k).mpr hk)
      rw [findById_foldl_of_lastById m t k y hy, ht,
        findById_foldl_of_lastById m [] k y hy]
    · rw [findById_foldl_of_not_mem m t k hk]

theorem messageLe_total (time : String → Int) (a b : Message) :
    (messageLe time a b || messageLe time b a) = true := by
  simp only [messageLe, Bool.or_eq_true, decide_eq_true_eq]
  rcases lt_trichotomy (time a.created_at) (time b.created_at) with h | h | h
  · exact Or.inl (Or.inl h)
  · rcases le_total a.id b.id with hid | hid
    · exact Or.inl (Or.inr ⟨h, hid⟩)
    · exact Or.inr (Or.inr ⟨h.symm, hid⟩)
  · exact Or.inr (Or.inl h)

theorem messageLe_trans (time : String → Int) (a b c : Message) :
    messageLe time a b → messageLe time b c → messageLe time a c := by
  simp only [messageLe, decide_eq_true_eq]
  rintro (hab | ⟨hab, hab'⟩) (hbc | ⟨hbc, hbc'⟩)
  · exact Or.inl (hab.trans hbc)
  · exact Or.inl (hbc ▸ hab)
  · exact Or.inl (hab ▸ hbc)
  · exact Or.inr ⟨hab.trans hbc, hab'.trans hbc'⟩

/-- C1: for every pair of message lists, `mergeConversationMessages` is
strictly ordered by `(created_at, id)` — chronological by the parsed
`created_at` time with the id string as tie-break for equal timestamps —
and its id list is duplicate-free, regardless of the order or overlap of
the two inputs. -/
theorem mergeConversationMessages_strictly_ordered
    (time : String → Int) (existing incoming : List Message) :
    (mergeConversationMessages time existing incoming).Pairwise
      (fun a b => time a.created_at < time b.created_at ∨
        (time a.created_at = time b.created_at ∧ a.id < b.id)) ∧
    ((mergeConversationMessages time existing incoming).map
      Message.id).Nodup := by
  have hnd :
      (((existing ++ incoming).foldl upsertById []).map Message.id).Nodup :=
    nodup_ids_foldl_upsertById _ [] (by simp)
  have hperm : List.Perm (mergeConversationMessages time existing incoming)
      ((existing ++ incoming).foldl upsertById []) := by
    unfold mergeConversationMessages
    exact List.mergeSort_perm _ _
  have hndm : ((mergeConversationMessages time existing incoming).map
      Message.id).Nodup := ((hperm.map Message.id).symm).nodup hnd
  refine ⟨?_, hndm⟩
  have hsorted : (mergeConversationMessages time existing incoming).Pairwise
      fun a b => messageLe time a b = true := by
    unfold mergeConversationMessages
    exact List.sorted_mergeSort (messageLe_trans time) (messageLe_total time) _
  have hpne : (mergeConversationMessages time existing incoming).Pairwise
      fun a b => a.id ≠ b.id := List.pairwise_map.mp hndm
  refine (hsorted.and hpne).imp ?_
  rintro a b ⟨hle, hne⟩
  rcases (decide_eq_true_eq.mp hle) with h | ⟨h, h'⟩
  · exact Or.inl h
  · exact Or.inr ⟨h, lt_of_le_of_ne h' hne⟩

/-- C8: `mergeConversationMessages` is idempotent (merging a list with
itself equals merging the empty list with it) and acts as a keyed union:
the id set of the result is the union of the id sets of the two inputs,
and whenever an id occurs in the incoming list, the entry kept for that id
is one of the incoming list's entries. -/
theorem mergeConversationMessages_keyed_union
    (time : String → Int) (m a b : List Message) :
    mergeConversationMessages time m m =
      mergeConversationMessages time [] m ∧
    (∀ k, k ∈ (mergeConversationMessages time a b).map Message.id ↔
      k ∈ a.map Message.id ∨ k ∈ b.map Message.id) ∧
    (∀ x, x ∈ mergeConversationMessages time a b →
      x.id ∈ b.map Message.id → x ∈ b) := by
  refine ⟨?_, ?_, ?_⟩
  · unfold mergeConversationMessages
    rw [List.nil_append, List.foldl_append, foldl_upsertById_idem]
  · intro k
    have hperm : List.Perm (mergeConversationMessages time a b)
        ((a ++ b).foldl upsertById []) := by
      unfold mergeConversationMessages
      exact List.mergeSort_perm _ _
    rw [(hperm.map Message.id).mem_iff, mem_ids_foldl_upsertById]
    simp
  · intro x hx hxb
    have hperm : List.Perm (mergeConversationMessages time a b)
        ((a ++ b).foldl upsertById []) := by
      unfold mergeConversationMessages
      exact List.mergeSort_perm _ _
    have hxf : x ∈ (a ++ b).foldl upsertById [] := hperm.mem_iff.mp hx
    have hnd : (((a ++ b).foldl upsertById []).map Message.id).Nodup :=
      nodup_ids_foldl_upsertById _ [] (by simp)
    have hfx : findById ((a ++ b).foldl upsertById []) x.id = some x :=
      findById_of_mem _ hnd x hxf
    obtain ⟨y, hy⟩ :=
      Option.isSome_iff_exists.mp ((lastById_isSome_iff b x.id).mpr hxb)
    have hyb : y ∈ b := by
      unfold lastById at hy
      exact List.mem_reverse.mp (List.mem_of_find?_eq_some hy)
    have hfy : findById ((a ++ b).foldl upsertById []) x.id = some y := by
      rw [List.foldl_append]
      exact findById_foldl_of_lastById b _ x.id y hy
    rw [hfx] at hfy
    exact (Option.some.inj hfy) ▸ hyb

theorem lookupEnv_setEnvKey (e : List (String × String)) (k v : String) :
    lookupEnv (setEnvKey e k v) k = some v := by
  unfold setEnvKey lookupEnv
  by_cases h : (e.any fun p => decide (p.1 = k)) = true
  · rw [if_pos h, List.find?_map]
    have hpf : ((fun p : String × String => decide (p.1 = k)) ∘
        fun p => if p.1 = k then (k, v) else p) =
        fun p : String × String => decide (p.1 = k) := by
      funext p
      show decide ((if p.1 = k then (k, v) else p).1 = k) = decide (p.1 = k)
      by_cases hp : p.1 = k
      · rw [if_pos hp]
        simp [hp]
      · rw [if_neg hp]
    rw [hpf]
    obtain ⟨y, hymem, hyk⟩ := List.any_eq_true.mp h
    have hs : (e.find? fun p => decide (p.1 = k)).isSome := by
      rw [List.find?_isSome]
      exact ⟨y, hymem, hyk⟩
    obtain ⟨z, hz⟩ := Option.isSome_iff_exists.mp hs
    have hz2 := List.find?_some hz
    have hzk : z.1 = k := of_decide_eq_true hz2
    rw [hz, Option.map_some', if_pos hzk, Option.map_some']
  · rw [if_neg h, List.find?_append]
    have hnone : (e.find? fun p => decide (p.1 = k)) = none := by
      rw [List.find?_eq_none]
      intro p hp hpk
      exact h (List.any_eq_true.mpr ⟨p, hp, hpk⟩)
    have hone : (List.find? (fun p => decide (p.1 = k)) [(k, v)]) =
        some (k, v) := List.find?_cons_of_pos _ (decide_eq_true rfl)
    rw [hnone, Option.none_or, hone, Option.map_some']

theorem getProcessRestartPolicy_setEnvKey
    (env : List (String × String)) (pol : ProcessRestartPolicy) :
    getProcessRestartPolicy
      (some (setEnvKey env PROCESS_RESTART_POLICY_KEY
        (processRestartPolicyToString pol))) = pol := by
  unfold getProcessRestartPolicy
  rw [Option.some_bind, lookupEnv_setEnvKey, Option.map_some']
  cases pol <;> decide

theorem mem_setEnvKey (acc : List (String × String)) (k v : String)
    (q : String × String) :
    q ∈ setEnvKey acc k v → q ∈ acc ∨ q = (k, v) := by
  unfold setEnvKey
  by_cases h : (acc.any fun p => decide (p.1 = k)) = true
  · rw [if_pos h]
    intro hq
    obtain ⟨x, hx, hxq⟩ := List.mem_map.mp hq
    by_cases hxk : x.1 = k
    · rw [if_pos hxk] at hxq
      exact Or.inr hxq.symm
    · rw [if_neg hxk] at hxq
      exact Or.inl (hxq ▸ hx)
  · rw [if_neg h]
    intro hq
    rcases List.mem_append.mp hq with hq | hq
    · exact Or.inl hq
    · exact Or.inr (List.mem_singleton.mp hq)

theorem mem_normalizeEnvEntries_aux :
    ∀ (entries : List (String × Json)) (acc : List (String × String))
      (q : String × String),
      q ∈ entries.foldl
        (fun acc p =>
          if jsTrim p.1 = "" then acc
          else setEnvKey acc p.1 (envValueString p.2)) acc →
      q ∈ acc ∨ ∃ kv ∈ entries, jsTrim kv.1 ≠ "" ∧
        q = (kv.1, envValueString kv.2) := by
  intro entries
  induction entries with
  | nil => intro acc q hq; exact Or.inl hq
  | cons e rest ih =>
    intro acc q hq
    rw [List.foldl_cons] at hq
    rcases ih _ q hq with hq' | ⟨kv, hkv, hkv', hkv''⟩
    · by_cases he : jsTrim e.1 = ""
      · rw [if_pos he] at hq'
        exact Or.inl hq'
      · rw [if_neg he] at hq'
        rcases mem_setEnvKey acc e.1 (envValueString e.2) q hq' with h | h
        · exact Or.inl h
        · exact Or.inr ⟨e, List.mem_cons_self _ _, he, h⟩
    · exact Or.inr ⟨kv, List.mem_cons_of_mem _ hkv, hkv', hkv''⟩

theorem mem_normalizeEnvEntries (entries : List (String × Json))
    (q : String × String) :
    q ∈ normalizeEnvEntries entries →
      ∃ kv ∈ entries, jsTrim kv.1 ≠ "" ∧ q = (kv.1, envValueString kv.2) := by
  intro hq
  rcases mem_normalizeEnvEntries_aux entries [] q hq with h | h
  · cases h
  · exact h

/-- All constructors of `MessageDirection`. -/
def allMessageDirections : List MessageDirection :=
  [.to_agent, .from_agent]

/-- All constructors of `MessageKind`, in source order. -/
def allMessageKinds : List MessageKind :=
  [.instruction, .pause, .resume, .cancel, .status_request, .status_update,
   .output, .error, .blocked, .completed, .heartbeat]

/-- All constructors of `AdapterType`, in source order. -/
def allAdapterTypes : List AdapterType :=
  [.claude_code, .codex, .tmux, .http_webhook, .process, .mock]

/-- C7: every Message direction is one of the two listed string values and
every kind is one of the eleven listed string values; conversely, every
listed value is produced by some variant, each exactly once — no other
direction or kind is representable. -/
theorem message_direction_kind_exactly_spec :
    (∀ d : MessageDirection, d ∈ allMessageDirections) ∧
    allMessageDirections.map messageDirectionToString =
      ["to_agent", "from_agent"] ∧
    (∀ k : MessageKind, k ∈ allMessageKinds) ∧
    allMessageKinds.map messageKindToString =
      ["instruction", "pause", "resume", "cancel", "status_request",
       "status_update", "output", "error", "blocked", "completed",
       "heartbeat"] ∧
    (allMessageDirections.map messageDirectionToString).Nodup ∧
    (allMessageKinds.map messageKindToString).Nodup := by
  refine ⟨fun d => ?_, by decide, fun k => ?_, by decide, by decide,
    by decide⟩
  · cases d <;> decide
  · cases k <;> decide

/-- C6 counterexample: `claude_code` is a representable adapter type (it
is what `buildAdapterConfig` produces for a claude_code draft) but it is
not among the five variants the spec lists; conversely the spec's
`terminal_session` is not among the representable type names. -/
theorem adapterType_outside_spec_set :
    (buildAdapterConfig
        ⟨"w", "engineering", "", AdapterType.claude_code, "kanbun",
          "claude", ""⟩ "").adapter_type = AdapterType.claude_code ∧
    adapterTypeToString AdapterType.claude_code ∉ specAdapterTypeNames ∧
    "terminal_session" ∈ specAdapterTypeNames ∧
    "terminal_session" ∉ allAdapterTypes.map adapterTypeToString := by
  refine ⟨by decide, by decide, by decide, by decide⟩

/-- C6 (amended): every AdapterConfig adapter_type is one of exactly the
six variants {claude_code, codex, tmux, http_webhook, process, mock}: the
six constructors are exhaustive, render to those six pairwise-distinct
names, and each name is therefore representable. -/
theorem adapterType_exactly_six :
    (∀ t : AdapterType, t ∈ allAdapterTypes) ∧
    allAdapterTypes.map adapterTypeToString = adapterTypeNames ∧
    (∀ t : AdapterType, adapterTypeToString t ∈ adapterTypeNames) ∧
    adapterTypeNames.Nodup := by
  refine ⟨fun t => ?_, by decide, fun t => ?_, by decide⟩
  · cases t <;> decide
  · cases t <;> decide

/-- C4: the AdapterHealth record declared at the command surface
(`src/types/index.ts`) has only four of the eight spec fields, even though
the detail panel reads all eight — `consecutive_failures`,
`retry_after_seconds`, `suppress_auto_restart` and `last_error` are read
by the panel but absent from the declared record. -/
theorem adapterHealth_fields_mismatch :
    adapterHealthFields.length = 4 ∧
    specAdapterHealthFields.length = 8 ∧
    adapterHealthFields ≠ specAdapterHealthFields ∧
    "consecutive_failures" ∈ specAdapterHealthFields ∧
    "consecutive_failures" ∈ agentDetailPanelHealthFieldsRead ∧
    "consecutive_failures" ∉ adapterHealthFields ∧
    "retry_after_seconds" ∉ adapterHealthFields ∧
    "suppress_auto_restart" ∉ adapterHealthFields ∧
    "last_error" ∉ adapterHealthFields := by
  refine ⟨by decide, by decide, by decide, by decide, by decide, by decide,
    by decide, by decide, by decide⟩

/-- C5: the `getConversation` wrapper invokes `get_conversation` with
exactly the argument keys `agentId` and `limit`; any extra call-site
argument — in particular the `beforeCreatedAt` that
`loadOlderConversation` passes — is dropped, so the load-older call is
identical to a plain most-recent-100 call for every value of the
timestamp. -/
theorem getConversation_ignores_before :
    (∀ (agentId : String) (limit : Option Nat) (extra : List String),
      (getConversation agentId limit extra).args.map Prod.fst =
        ["agentId", "limit"]) ∧
    (∀ (agentId b₁ b₂ : String),
      loadOlderConversationCall agentId b₁ =
        loadOlderConversationCall agentId b₂) ∧
    loadOlderConversationCall "agent-1" "2024-01-01T00:00:00Z" =
      getConversation "agent-1" (some 100) := by
  exact ⟨fun _ _ _ => rfl, fun _ _ _ => rfl, rfl⟩

/-- C9: in the desktop runtime, `handleSendMessage` always submits the
trimmed user content when that is non-blank and the placeholder
`[<kind>]` otherwise; either way the submitted content is non-empty. -/
theorem handleSendMessage_nonempty_content
    (agentId : String) (kind : MessageKind) (content : String) :
    handleSendMessage true agentId kind content =
      SendMessageOutcome.send agentId kind
        (if jsTrim content = ""
          then "[" ++ messageKindToString kind ++ "]" else jsTrim content) ∧
    (if jsTrim content = ""
      then "[" ++ messageKindToString kind ++ "]" else jsTrim content) ≠
      "" := by
  constructor
  · rfl
  · by_cases h : jsTrim content = ""
    · rw [if_pos h]
      cases kind <;> decide
    · rw [if_neg h]
      exact h

/-- C2: a blank process command blocks configuration: the adapter-config
save path reports exactly "Process command is required." before any
`set_adapter_config` call, and the workstream-creation path reports its
process-command configuration error before any backend call; both return
immediately without retrying. -/
theorem process_command_required_blocks_save
    (parse : String → Option Json) (cfg : AdapterConfig)
    (cmdDraft envDraft : String) (pol : ProcessRestartPolicy)
    (draft : AgentDraft) (fallbackName : String) :
    (cfg.adapter_type = AdapterType.process → jsTrim cmdDraft = "" →
      handleSaveAdapterConfig parse (some cfg) cmdDraft envDraft pol =
        SaveConfigOutcome.configError "Process command is required.") ∧
    (draft.adapterType = AdapterType.process →
      jsTrim draft.processCommand = "" → fallbackName ≠ "" →
      handleCreateWorkstreamForProject draft fallbackName =
        CreateWorkstreamOutcome.agentError
          "Process command is required for process adapter.") := by
  constructor
  · intro h1 h2
    have hcond : cfg.adapter_type = AdapterType.process ∧
        jsTrim cmdDraft = "" := And.intro h1 h2
    simp only [handleSaveAdapterConfig, if_pos hcond]
  · intro h1 h2 h3
    have hcond : draft.adapterType = AdapterType.process ∧
        jsTrim draft.processCommand = "" := And.intro h1 h2
    simp only [handleCreateWorkstreamForProject]
    by_cases hn : jsTrim draft.name = ""
    · rw [if_pos hn, if_neg h3, if_pos hcond]
    · rw [if_neg hn, if_neg hn, if_pos hcond]

/-- C2 witness: concrete blank-command process drafts hit both error
paths. -/
theorem process_command_required_blocks_save_witness :
    handleSaveAdapterConfig (fun _ => none)
        (some ⟨AdapterType.process, none, none, some "codex", none⟩)
        " " "" ProcessRestartPolicy.never =
      SaveConfigOutcome.configError "Process command is required." ∧
    handleCreateWorkstreamForProject
        ⟨"", "engineering", "", AdapterType.process, "", "", " "⟩
        "Workstream 12:00:00" =
      CreateWorkstreamOutcome.agentError
        "Process command is required for process adapter." := by
  constructor
  · exact (process_command_required_blocks_save (fun _ => none)
      ⟨AdapterType.process, none, none, some "codex", none⟩ " " ""
      ProcessRestartPolicy.never
      ⟨"", "engineering", "", AdapterType.process, "", "", " "⟩
      "Workstream 12:00:00").1 (by decide) (by decide)
  · exact (process_command_required_blocks_save (fun _ => none)
      ⟨AdapterType.process, none, none, some "codex", none⟩ " " ""
      ProcessRestartPolicy.never
      ⟨"", "engineering", "", AdapterType.process, "", "", " "⟩
      "Workstream 12:00:00").2 (by decide) (by decide) (by decide)

/-- C3 counterexample: an env map that stores the policy under the spec's
key name `restart_policy` is ignored by the reader — the recognized key is
not `restart_policy`. -/
theorem restart_policy_spec_key_ignored :
    getProcessRestartPolicy (some [("restart_policy", "never")]) =
      ProcessRestartPolicy.on_failure ∧
    getProcessRestartPolicy (some [("restart_policy", "never")]) ≠
      ProcessRestartPolicy.never := by
  refine ⟨by decide, by decide⟩

/-- C3 (amended): the restart policy travels in the AdapterConfig env map
under the recognized key `__kanbun_restart_policy`; the written value is
always one of never/on_failure/always, reading a written policy back
yields that policy, a missing key yields the default on_failure, and
every config the save path emits for a process adapter reads back as the
chosen policy. -/
theorem restart_policy_env_key_behavior
    (env : List (String × String)) (pol : ProcessRestartPolicy)
    (parse : String → Option Json) (cfg c : AdapterConfig)
    (cmd envd : String) :
    processRestartPolicyToString pol ∈ ["never", "on_failure", "always"] ∧
    lookupEnv (setEnvKey env PROCESS_RESTART_POLICY_KEY
        (processRestartPolicyToString pol)) PROCESS_RESTART_POLICY_KEY =
      some (processRestartPolicyToString pol) ∧
    getProcessRestartPolicy (some (setEnvKey env PROCESS_RESTART_POLICY_KEY
        (processRestartPolicyToString pol))) = pol ∧
    getProcessRestartPolicy none = ProcessRestartPolicy.on_failure ∧
    (lookupEnv env PROCESS_RESTART_POLICY_KEY = none →
      getProcessRestartPolicy (some env) = ProcessRestartPolicy.on_failure) ∧
    (cfg.adapter_type = AdapterType.process →
      handleSaveAdapterConfig parse (some cfg) cmd envd pol =
        SaveConfigOutcome.save c →
      getProcessRestartPolicy c.env = pol) := by
  refine ⟨by cases pol <;> decide,
    lookupEnv_setEnvKey env PROCESS_RESTART_POLICY_KEY
      (processRestartPolicyToString pol),
    getProcessRestartPolicy_setEnvKey env pol, rfl, ?_, ?_⟩
  · intro h
    unfold getProcessRestartPolicy
    rw [Option.some_bind, h]
    rfl
  · intro hp hsave
    by_cases hc : jsTrim cmd = ""
    · have hcond : cfg.adapter_type = AdapterType.process ∧
        jsTrim cmd = "" := And.intro hp hc
      simp only [handleSaveAdapterConfig, if_pos hcond] at hsave
      exact absurd hsave (by simp)
    · have hcond : ¬ (cfg.adapter_type = AdapterType.process ∧
        jsTrim cmd = "") := fun hand => hc hand.2
      simp only [handleSaveAdapterConfig, if_neg hcond] at hsave
      cases hparse : parseEnvDraft parse envd with
      | error msg =>
        rw [hparse] at hsave
        exact absurd hsave (by simp)
      | ok parsedEnv =>
        rw [hparse] at hsave
        simp only [if_pos hp] at hsave
        have hcenv : c.env = some (setEnvKey (parsedEnv.getD [])
            PROCESS_RESTART_POLICY_KEY
            (processRestartPolicyToString pol)) := by
          have := SaveConfigOutcome.save.inj hsave
          rw [← this]
        rw [hcenv]
        exact getProcessRestartPolicy_setEnvKey _ pol

/-- C3 witness: a written `never` policy reads back as `never`, and a
concrete process-adapter save stores the policy under
`__kanbun_restart_policy` where the reader finds it. -/
theorem restart_policy_env_key_behavior_witness :
    getProcessRestartPolicy (some (setEnvKey [] PROCESS_RESTART_POLICY_KEY
        (processRestartPolicyToString ProcessRestartPolicy.never))) =
      ProcessRestartPolicy.never ∧
    getProcessRestartPolicy (some [("PATH", "/bin")]) =
      ProcessRestartPolicy.on_failure ∧
    getProcessRestartPolicy
        (AdapterConfig.env ⟨AdapterType.process, none, none, some "codex",
          some [(PROCESS_RESTART_POLICY_KEY, "always")]⟩) =
      ProcessRestartPolicy.always := by
  refine ⟨(restart_policy_env_key_behavior [] ProcessRestartPolicy.never
      (fun _ => none) ⟨AdapterType.mock, none, none, none, none⟩
      ⟨AdapterType.mock, none, none, none, none⟩ "" "").2.2.1, ?_, ?_⟩
  · exact (restart_policy_env_key_behavior [("PATH", "/bin")]
      ProcessRestartPolicy.on_failure (fun _ => none)
      ⟨AdapterType.mock, none, none, none, none⟩
      ⟨AdapterType.mock, none, none, none, none⟩ "" "").2.2.2.2.1
      (by decide)
  · exact (restart_policy_env_key_behavior [] ProcessRestartPolicy.always
      (fun _ => none) ⟨AdapterType.process, none, none, some "codex", none⟩
      ⟨AdapterType.process, none, none, some "codex",
        some [(PROCESS_RESTART_POLICY_KEY, "always")]⟩ "codex" "").2.2.2.2.2
      (by decide) (by decide)

/-- C10: `parseEnvDraft` is total apart from its two explicit error
messages: blank input yields `null`; non-blank input that fails to parse
or parses to a non-object throws; on an object it returns a map whose
keys are all non-blank and whose values come from the object's entries
via the string/null/stringify normalization, with an empty result
returned as `null` rather than an empty map. -/
theorem parseEnvDraft_total_and_normalized
    (parse : String → Option Json) (raw : String) :
    (jsTrim raw = "" → parseEnvDraft parse raw = .ok none) ∧
    (jsTrim raw ≠ "" → parse (jsTrim raw) = none →
      parseEnvDraft parse raw = .error "Environment must be valid JSON.") ∧
    (∀ j, jsTrim raw ≠ "" → parse (jsTrim raw) = some j →
      (∀ entries, j ≠ Json.obj entries) →
      parseEnvDraft parse raw =
        .error "Environment must be a JSON object.") ∧
    (∀ entries, jsTrim raw ≠ "" →
      parse (jsTrim raw) = some (Json.obj entries) →
      ∃ r, parseEnvDraft parse raw = .ok r ∧
        (r = none ∨ ∃ m, r = some m ∧ m ≠ [] ∧
          ∀ p ∈ m, jsTrim p.1 ≠ "" ∧
            ∃ v, (p.1, v) ∈ entries ∧ p.2 = envValueString v)) := by
  refine ⟨?_, ?_, ?_, ?_⟩
  · intro h
    simp only [parseEnvDraft, if_pos h]
  · intro h hp
    simp only [parseEnvDraft, if_neg h, hp]
  · intro j h hp hno
    cases j with
    | obj entries => exact absurd rfl (hno entries)
    | null => simp only [parseEnvDraft, if_neg h, hp]
    | bool b => simp only [parseEnvDraft, if_neg h, hp]
    | num r => simp only [parseEnvDraft, if_neg h, hp]
    | str s => simp only [parseEnvDraft, if_neg h, hp]
    | arr xs => simp only [parseEnvDraft, if_neg h, hp]
  · intro entries h hp
    simp only [parseEnvDraft, if_neg h, hp]
    refine ⟨_, rfl, ?_⟩
    by_cases hlen : (normalizeEnvEntries entries).length > 0
    · right
      refine ⟨normalizeEnvEntries entries, by rw [if_pos hlen], ?_, ?_⟩
      · exact List.length_pos.mp hlen
      · intro p hpmem
        obtain ⟨kv, hkv, hne, heq⟩ :=
          mem_normalizeEnvEntries entries p hpmem
        constructor
        · rw [heq]
          exact hne
        · refine ⟨kv.2, ?_, by rw [heq]⟩
          have : (p.1, kv.2) = kv := by
            rw [heq]
          rw [this]
          exact hkv
    · left
      rw [if_neg hlen]

/-- C10 witness: blank input, invalid JSON, and a JSON array hit the
three explicit cases. -/
theorem parseEnvDraft_witness :
    parseEnvDraft (fun _ => some (Json.obj [("A", Json.str "x")])) "  " =
      .ok none ∧
    parseEnvDraft (fun _ => none) "x" =
      .error "Environment must be valid JSON." ∧
    parseEnvDraft (fun _ => some (Json.arr [])) "x" =
      .error "Environment must be a JSON object." := by
  refine ⟨(parseEnvDraft_total_and_normalized
      (fun _ => some (Json.obj [("A", Json.str "x")])) "  ").1 (by decide),
    (parseEnvDraft_total_and_normalized (fun _ => none) "x").2.1
      (by decide) rfl,
    (parseEnvDraft_total_and_normalized (fun _ => some (Json.arr []))
      "x").2.2.1 (Json.arr []) (by decide) rfl
      (fun entries hcontra => Json.noConfusion hcontra)⟩

/-- C8 witness: merging a singleton with itself equals merging it into an
empty conversation, and the surviving entry for a shared id is the
incoming one. -/
theorem mergeConversationMessages_keyed_union_witness :
    mergeConversationMessages (fun _ => 0)
        [⟨"a", "agent-1", MessageDirection.to_agent,
          MessageKind.instruction, "hello", none, none, "t1", none, none⟩]
        [⟨"a", "agent-1", MessageDirection.to_agent,
          MessageKind.instruction, "hello", none, none, "t1", none, none⟩] =
      mergeConversationMessages (fun _ => 0) []
        [⟨"a", "agent-1", MessageDirection.to_agent,
          MessageKind.instruction, "hello", none, none, "t1", none, none⟩] ∧
    (⟨"a", "agent-1", MessageDirection.to_agent, MessageKind.instruction,
        "hello", none, none, "t1", none, none⟩ : Message) ∈
      [(⟨"a", "agent-1", MessageDirection.to_agent, MessageKind.instruction,
        "hello", none, none, "t1", none, none⟩ : Message)] := by
  constructor
  · exact (mergeConversationMessages_keyed_union (fun _ => 0)
      [⟨"a", "agent-1", MessageDirection.to_agent, MessageKind.instruction,
        "hello", none, none, "t1", none, none⟩] [] []).1
  · refine (mergeConversationMessages_keyed_union (fun _ => 0) [] []
      [⟨"a", "agent-1", MessageDirection.to_agent, MessageKind.instruction,
        "hello", none, none, "t1", none, none⟩]).2.2
      ⟨"a", "agent-1", MessageDirection.to_agent, MessageKind.instruction,
        "hello", none, none, "t1", none, none⟩ ?_ ?_
    · simp [mergeConversationMessages, upsertById]
    · simp
